import Mathlib

/-!
Verification of the envy environment-variable decoder (src/lib.rs, src/error.rs).

The development shallowly embeds the decoding pipeline of the crate:

* `Error` embeds `error.rs`'s `Error` enum (`MissingValue` / `Custom`).
* `parseBool`, `parseUnsigned`, `parseSigned` embed the behaviour of Rust's
  `str::parse::<bool>` / `from_str_radix(10)` for the scalar types listed in
  the `forward_parsed_values!` instantiation of `lib.rs` (lines 156-168),
  including the exact error strings of `ParseBoolError` and `ParseIntError`.
* `Shape` describes the target type schema that serde's derived
  `Deserialize` implementation walks: the scalar kinds, `Option`, `Vec`
  (comma-splitting), unit-variant enums and nested structs.
* `decodeVal` embeds `Val`'s `de::Deserializer` impl (lib.rs lines 123-200)
  combined with the derived visitor for the target shape: parsed scalars
  (lines 108-121, 156-168), `deserialize_seq` (135-144), `deserialize_option`
  (146-154), `deserialize_enum` (182-192) followed by serde's string
  `EnumAccess` (exact tag match, `unknown_variant` otherwise), and the
  `struct` entry of `forward_to_deserialize_any!` (194-199) which hands the
  raw string to the nested struct's visitor (`invalid_type` error).
* `processPairs` / `resolveFields` / `fromIter` embed `from_iter`
  (lib.rs 289-295): a `MapDeserializer` over `Vars` (lines 98-106, keys
  lowercased, original spelling kept in `Val`) driven by the derived struct
  visitor (fields bound in input order, duplicate detection, unknown keys
  ignored) followed by serde's missing-field resolution (declared defaults,
  `None` for absent `Option` fields, `Error::missing_field` otherwise,
  error.rs lines 45-47).
* `prefixedPairs` embeds `Prefixed::from_iter`'s `filter_map`
  (lib.rs 312-327), with `trimLeading` embedding `str::trim_start_matches`.
-/

namespace Envy

/-- Embeds the `Error` enum of `src/error.rs`: `MissingValue(&'static str)`
for a required field without a source value, `Custom(String)` for every
other failure. -/
inductive Error where
  | MissingValue (field : String)
  | Custom (msg : String)

/-- Decoded values produced by the engine: scalars, option, sequence,
unit enum variants and records. Unsigned integers are carried as `Nat`,
signed ones as `Int`; the width bounds are enforced by the parsers. -/
inductive Value where
  | vBool (b : Bool)
  | vNat (n : Nat)
  | vInt (i : Int)
  | vStr (s : String)
  | vNone
  | vSome (v : Value)
  | vList (vs : List Value)
  | vVariant (tag : String)
  | vRecord (binds : List (String × Value))

/-- Target shapes the derived `Deserialize` impl can request from `Val`:
the parsed scalar kinds of `forward_parsed_values!`, strings (identity),
`Option`, sequences, unit-variant enums (with their declared, post-rename
tags) and nested structs (with their name and field triples
name/shape/default). Rust's `f32`/`f64` are the one scalar pair left out
of the embedding: IEEE floating point has no shallow model here. -/
inductive Shape where
  | sBool
  | sU8
  | sU16
  | sU32
  | sU64
  | sI8
  | sI16
  | sI32
  | sI64
  | sString
  | sOption (inner : Shape)
  | sSeq (elem : Shape)
  | sEnum (ename : String) (variants : List String)
  | sStruct (sname : String) (fields : List (String × Shape × Option Value))

/-- One field of the top-level target struct: its (lowercase) structural
name, its shape, and the value supplied by a `#[serde(default ...)]`
attribute, if any. -/
structure Field where
  name : String
  shape : Shape
  dflt : Option Value

/-- Is the shape an `Option<_>`? (Such fields absorb a missing value as
`None` via serde's missing-field deserializer.) -/
def Shape.isOption : Shape → Bool
  | .sOption _ => true
  | _ => false

/-- Embeds `String::to_lowercase` as applied to env var names in
`Vars::next` (lib.rs line 104). `Char.toLower` agrees with Rust on ASCII,
which is the alphabet of environment variable names. -/
def lowercase (s : String) : String := ⟨s.data.map Char.toLower⟩

/-- Digit value of an ASCII digit character, as in Rust's
`char::to_digit(10)` on a digit. -/
def digitVal (c : Char) : Nat := c.toNat - 48

/-- Embeds the digit loop of Rust's `from_str_radix(10)` for an unsigned
integer type with maximum value `max`: invalid digits and positive
overflow abort with the exact `ParseIntError` messages. -/
def parseUnsignedDigits (max : Nat) : Nat → List Char → Except String Nat
  | acc, [] => .ok acc
  | acc, c :: cs =>
    if c.isDigit then
      if acc * 10 + digitVal c > max then
        .error "number too large to fit in target type"
      else
        parseUnsignedDigits max (acc * 10 + digitVal c) cs
    else
      .error "invalid digit found in string"

/-- Embeds Rust's `u8/u16/u32/u64::from_str` (radix 10) with maximum
value `max`: empty input, a lone sign, a `+` sign prefix, digits;
a `-` falls through to the digit loop and is rejected as an invalid
digit, exactly as in `core::num::from_str_radix` for unsigned types. -/
def parseUnsigned (max : Nat) (s : String) : Except String Nat :=
  match s.data with
  | [] => .error "cannot parse integer from empty string"
  | c :: cs =>
    if c = '+' then
      if cs = [] then .error "invalid digit found in string"
      else parseUnsignedDigits max 0 cs
    else parseUnsignedDigits max 0 (c :: cs)

/-- Embeds the digit loop of Rust's `from_str_radix(10)` for a signed
integer type with bounds `min`/`max`: the negative accumulator uses
checked subtraction (`number too small`), the positive one checked
addition (`number too large`). -/
def parseSignedDigits (min max : Int) (neg : Bool) : Int → List Char → Except String Int
  | acc, [] => .ok acc
  | acc, c :: cs =>
    if c.isDigit then
      if neg then
        if acc * 10 - digitVal c < min then
          .error "number too small to fit in target type"
        else
          parseSignedDigits min max neg (acc * 10 - digitVal c) cs
      else
        if acc * 10 + digitVal c > max then
          .error "number too large to fit in target type"
        else
          parseSignedDigits min max neg (acc * 10 + digitVal c) cs
    else
      .error "invalid digit found in string"

/-- Embeds Rust's `i8/i16/i32/i64::from_str` (radix 10) with bounds
`min`/`max`: empty input, a lone sign, an optional `+`/`-` sign, then the
digit loop. -/
def parseSigned (min max : Int) (s : String) : Except String Int :=
  match s.data with
  | [] => .error "cannot parse integer from empty string"
  | c :: cs =>
    if c = '+' then
      if cs = [] then .error "invalid digit found in string"
      else parseSignedDigits min max false 0 cs
    else if c = '-' then
      if cs = [] then .error "invalid digit found in string"
      else parseSignedDigits min max true 0 cs
    else parseSignedDigits min max false 0 (c :: cs)

/-- Embeds Rust's `bool::from_str`: exactly the tokens `true` and `false`,
everything else fails with the `ParseBoolError` message. -/
def parseBool (s : String) : Except String Bool :=
  if s = "true" then .ok true
  else if s = "false" then .ok false
  else .error "provided string was not `true` or `false`"

/-- The error message produced by `forward_parsed_values!` (lib.rs line
116): `"{e} while parsing value '{value}' provided by {key}"`, where `key`
is the original (not lowercased) env var name stored in `Val`. -/
def parseFailMsg (e v k : String) : String :=
  e ++ " while parsing value \x27" ++ v ++ "\x27 provided by " ++ k

/-- Wraps a scalar parse result as `forward_parsed_values!` does: parse
successes feed the visitor, parse failures become `Error::custom` with
`parseFailMsg`. -/
def fwdParsed (k v : String) : Except String Value → Except Error Value
  | .ok val => .ok val
  | .error e => .error (.Custom (parseFailMsg e v k))

/-- Embeds serde's `OneOf` display used by `Error::unknown_variant` to
list the expected variant tags. (serde treats the zero-variant case as
unreachable.) -/
def oneOf : List String → String
  | [] => ""
  | [a] => "`" ++ a ++ "`"
  | [a, b] => "`" ++ a ++ "` or `" ++ b ++ "`"
  | a :: rest => "one of `" ++ a ++ "`" ++ String.join (rest.map (fun b => ", `" ++ b ++ "`"))

/-- The message of serde's default `Error::unknown_variant`, produced when
the raw value string matches none of the declared variant tags. -/
def unknownVariantMsg (v : String) (names : List String) : String :=
  "unknown variant `" ++ v ++ "`, expected " ++ oneOf names

/-- Embeds the escaping of Rust's `{:?}` (`str::escape_debug`) for the
common characters appearing in `Unexpected::Str`; unicode/control escapes
beyond the usual shorthands are left verbatim. -/
def rustDebugChar (c : Char) : List Char :=
  if c = '\x22' then ['\\', '\x22']
  else if c = '\\' then ['\\', '\\']
  else if c = '\n' then ['\\', 'n']
  else if c = '\r' then ['\\', 'r']
  else if c = '\t' then ['\\', 't']
  else [c]

/-- Rust `{:?}` rendering of a string, as used by serde's
`Unexpected::Str` display inside `invalid_type` errors. -/
def rustDebugStr (s : String) : String :=
  ⟨'\x22' :: (s.data.flatMap rustDebugChar) ++ ['\x22']⟩

/-- Embeds Rust's `str::split(',')` (lib.rs line 142) on the character
list of the raw value: the empty input yields one empty segment, and a
separator at either end yields an empty segment on that side. -/
def splitComma : List Char → List (List Char)
  | [] => [[]]
  | c :: cs =>
    if c = ',' then [] :: splitComma cs
    else
      match splitComma cs with
      | [] => [[c]]
      | t :: ts => (c :: t) :: ts

/-- Decodes each segment of a split sequence value in order, aborting at
the first failing element, as serde's `SeqDeserializer` does when driven
by the derived `Vec` visitor. -/
def decodeListWith (f : String → Except Error Value) : List String → Except Error (List Value)
  | [] => .ok []
  | s :: rest =>
    match f s with
    | .ok v => (decodeListWith f rest).map (v :: ·)
    | .error e => .error e

/-- Embeds `Val`'s `de::Deserializer` impl (lib.rs lines 123-200) driven
by the derived visitor of the target shape. `k` is the original env var
name stored in `Val.0`; `v` is the raw value string stored in `Val.1`.

* parsed scalars go through `forward_parsed_values!` with the bounds of
  the corresponding Rust type;
* `String` targets forward to `deserialize_any`, i.e. the raw value is
  passed through unchanged;
* `Option` targets get `visit_some(self)`: the inner shape is decoded
  from the same `Val` and wrapped;
* sequences split the raw value on `,` and decode each segment against
  the element shape, each segment keeping the original key;
* enums hand the raw value string to serde's string `EnumAccess`: the
  derived variant identifier matches the declared tags exactly and
  otherwise fails with `unknown_variant`;
* nested structs are forwarded to `deserialize_any`, so the nested
  struct's visitor receives `visit_str` on the raw value and fails with
  serde's `invalid_type` error. -/
def decodeVal : Shape → String → String → Except Error Value
  | .sBool, k, v => fwdParsed k v ((parseBool v).map .vBool)
  | .sU8, k, v => fwdParsed k v ((parseUnsigned 255 v).map .vNat)
  | .sU16, k, v => fwdParsed k v ((parseUnsigned 65535 v).map .vNat)
  | .sU32, k, v => fwdParsed k v ((parseUnsigned 4294967295 v).map .vNat)
  | .sU64, k, v => fwdParsed k v ((parseUnsigned 18446744073709551615 v).map .vNat)
  | .sI8, k, v => fwdParsed k v ((parseSigned (-128) 127 v).map .vInt)
  | .sI16, k, v => fwdParsed k v ((parseSigned (-32768) 32767 v).map .vInt)
  | .sI32, k, v => fwdParsed k v ((parseSigned (-2147483648) 2147483647 v).map .vInt)
  | .sI64, k, v =>
    fwdParsed k v ((parseSigned (-9223372036854775808) 9223372036854775807 v).map .vInt)
  | .sString, _, v => .ok (.vStr v)
  | .sOption sh, k, v => (decodeVal sh k v).map .vSome
  | .sSeq sh, k, v =>
    (decodeListWith (decodeVal sh k) ((splitComma v.data).map (fun cs => (⟨cs⟩ : String)))).map .vList
  | .sEnum _ names, _, v =>
    if names.contains v then .ok (.vVariant v)
    else .error (.Custom (unknownVariantMsg v names))
  | .sStruct sname _, _, v =>
    .error (.Custom ("invalid type: string " ++ rustDebugStr v ++ ", expected struct " ++ sname))

/-- The scalar-parsing table of `forward_parsed_values!` (lib.rs lines
156-168): for the shapes that go through `self.1.parse::<$ty>()` it
returns the parse result (typed on success, the Rust error string on
failure); `none` for every other shape. -/
def scalarParse : Shape → String → Option (Except String Value)
  | .sBool, v => some ((parseBool v).map .vBool)
  | .sU8, v => some ((parseUnsigned 255 v).map .vNat)
  | .sU16, v => some ((parseUnsigned 65535 v).map .vNat)
  | .sU32, v => some ((parseUnsigned 4294967295 v).map .vNat)
  | .sU64, v => some ((parseUnsigned 18446744073709551615 v).map .vNat)
  | .sI8, v => some ((parseSigned (-128) 127 v).map .vInt)
  | .sI16, v => some ((parseSigned (-32768) 32767 v).map .vInt)
  | .sI32, v => some ((parseSigned (-2147483648) 2147483647 v).map .vInt)
  | .sI64, v => some ((parseSigned (-9223372036854775808) 9223372036854775807 v).map .vInt)
  | _, _ => none

/-- Embeds the key/value loop of the derived struct visitor driven by
`MapDeserializer` over `Vars` (lib.rs lines 98-106, 235-269): pairs are
consumed in input order; each key is lowercased (`Vars::next`) and
matched against the declared field names; a key matching no field is
ignored (serde ignores unknown fields by default); a field bound twice
is a `duplicate field` error; a matching pair's value is decoded against
the field's shape with the original key spelling kept for error
messages. Returns the bindings accumulated in `slots`. -/
def processPairs (fields : List Field) : List (String × String) → List (String × Value) → Except Error (List (String × Value))
  | [], slots => .ok slots
  | (k, v) :: rest, slots =>
    match fields.find? (fun f => f.name == lowercase k) with
    | some f =>
      if (slots.lookup f.name).isSome then
        .error (.Custom ("duplicate field `" ++ f.name ++ "`"))
      else
        match decodeVal f.shape k v with
        | .ok val => processPairs fields rest (slots ++ [(f.name, val)])
        | .error e => .error e
    | none => processPairs fields rest slots

/-- Resolves one declared field after the pair loop, as the derived
visitor's epilogue does: a bound slot is used as is; otherwise a declared
`#[serde(default)]` supplier is invoked; otherwise an `Option` field
becomes `None` (serde's missing-field deserializer calls `visit_none`);
otherwise the decode fails with `Error::missing_field(field_name)`
(error.rs lines 45-47). -/
def resolveField (slots : List (String × Value)) (f : Field) : Except Error (String × Value) :=
  match slots.lookup f.name with
  | some v => .ok (f.name, v)
  | none =>
    match f.dflt with
    | some d => .ok (f.name, d)
    | none =>
      if f.shape.isOption then .ok (f.name, .vNone)
      else .error (.MissingValue f.name)

/-- Resolves all declared fields in schema declaration order, stopping at
the first failure. -/
def resolveFields (slots : List (String × Value)) : List Field → Except Error (List (String × Value))
  | [] => .ok []
  | f :: rest =>
    match resolveField slots f with
    | .ok p => (resolveFields slots rest).map (p :: ·)
    | .error e => .error e

/-- Embeds `from_iter` (lib.rs lines 289-295) for a target struct with
the given field schema: run the pair loop over the input, then resolve
every declared field, producing the decoded record. -/
def fromIter (fields : List Field) (pairs : List (String × String)) : Except Error Value :=
  match processPairs fields pairs [] with
  | .ok slots => (resolveFields slots fields).map .vRecord
  | .error e => .error e

/-- Embeds `str::starts_with` on full strings (lib.rs line 321). -/
def startsWith (p s : String) : Bool := p.data.isPrefixOf s.data

/-- Embeds `str::trim_start_matches` (lib.rs line 322): repeatedly strip
the pattern from the front while it matches; the fuel argument (the
length of the subject) bounds the number of strips. -/
def trimLeading (p : List Char) : Nat → List Char → List Char
  | 0, s => s
  | Nat.succ n, s => if p ≠ [] ∧ p.isPrefixOf s then trimLeading p n (s.drop p.length) else s

/-- `str::trim_start_matches` on strings. -/
def trimStartMatches (p s : String) : String := ⟨trimLeading p.data s.data.length s.data⟩

/-- Embeds `Prefixed::from_iter`'s `filter_map` (lib.rs lines 312-327):
keep exactly the pairs whose key starts with the configured pattern `p`,
replacing the key by `trim_start_matches` of it and leaving the value
untouched; every other pair is silently dropped. -/
def prefixedPairs (p : String) (pairs : List (String × String)) : List (String × String) :=
  pairs.filterMap (fun kv =>
    if startsWith p kv.1 then some (trimStartMatches p kv.1, kv.2) else none)

/-- `Prefixed::from_iter` feeding the filtered pairs to `from_iter`. -/
def prefixedFromIter (p : String) (fields : List Field) (pairs : List (String × String)) : Except Error Value :=
  fromIter fields (prefixedPairs p pairs)

/-- Rejoin the segments of a split with the comma separator; used to state
that `splitComma` is exactly a split on the comma character. -/
def joinComma : List (List Char) → List Char
  | [] => []
  | [t] => t
  | t :: ts => t ++ ',' :: joinComma ts

/-- A field is required-and-unbound when its key bound no input pair, it
declares no default, and its shape is not an `Option`. -/
def requiredMissing (slots : List (String × Value)) (f : Field) : Prop :=
  (slots.lookup f.name).isNone = true ∧ f.dflt.isNone = true ∧ f.shape.isOption = false

instance (slots : List (String × Value)) (f : Field) : Decidable (requiredMissing slots f) :=
  inferInstanceAs (Decidable ((slots.lookup f.name).isNone = true ∧
    f.dflt.isNone = true ∧ f.shape.isOption = false))

/-- Formalises the claim's reading of prefix stripping, for comparison
with `prefixedPairs`: remove exactly one copy of the pattern from the
front of each retained key. -/
def specStripPairs (p : String) (pairs : List (String × String)) : List (String × String) :=
  pairs.filterMap (fun kv =>
    if startsWith p kv.1 then some ((⟨kv.1.data.drop p.data.length⟩ : String), kv.2) else none)

/-! ### Basic facts about the embedding -/

theorem string_data_append (a b : String) : (a ++ b).data = a.data ++ b.data := rfl

theorem splitComma_ne_nil : ∀ cs : List Char, splitComma cs ≠ [] := by
  intro cs
  induction cs with
  | nil => simp [splitComma]
  | cons c cs ih =>
    by_cases h : c = ','
    · simp [splitComma, h]
    · simp only [splitComma, if_neg h]
      cases hs : splitComma cs with
      | nil => simp
      | cons t ts => simp

theorem splitComma_join : ∀ cs : List Char, joinComma (splitComma cs) = cs := by
  intro cs
  induction cs with
  | nil => rfl
  | cons c cs ih =>
    by_cases h : c = ','
    · subst h
      simp only [splitComma, if_pos rfl]
      obtain ⟨t, ts, hs⟩ : ∃ t ts, splitComma cs = t :: ts := by
        cases hs : splitComma cs with
        | nil => exact absurd hs (splitComma_ne_nil cs)
        | cons t ts => exact ⟨t, ts, rfl⟩
      rw [hs]
      rw [hs] at ih
      simp [joinComma, ← ih]
    · simp only [splitComma, if_neg h]
      obtain ⟨t, ts, hs⟩ : ∃ t ts, splitComma cs = t :: ts := by
        cases hs : splitComma cs with
        | nil => exact absurd hs (splitComma_ne_nil cs)
        | cons t ts => exact ⟨t, ts, rfl⟩
      rw [hs]
      rw [hs] at ih
      cases ts with
      | nil => simpa [joinComma] using ih
      | cons a ts' => simpa [joinComma] using ih

theorem splitComma_no_comma : ∀ cs : List Char, ∀ t ∈ splitComma cs, ',' ∉ t := by
  intro cs
  induction cs with
  | nil => simp [splitComma]
  | cons c cs ih =>
    by_cases h : c = ','
    · subst h
      simp only [splitComma, if_pos rfl]
      intro t ht
      rcases List.mem_cons.mp ht with h1 | h1
      · subst h1; simp
      · exact ih t h1
    · simp only [splitComma, if_neg h]
      cases hs : splitComma cs with
      | nil => exact absurd hs (splitComma_ne_nil cs)
      | cons a ts =>
        intro t ht
        rcases List.mem_cons.mp ht with h1 | h1
        · subst h1
          intro hc
          rcases List.mem_cons.mp hc with h2 | h2
          · exact h h2.symm
          · exact ih a (by rw [hs]; exact List.mem_cons_self a ts) h2
        · exact ih t (by rw [hs]; exact List.mem_cons_of_mem a h1)

/-! ### Claim C4: sequence decoding splits on commas -/

/-- C4: a sequence-typed field splits the raw string on the comma
character (`splitComma` is exactly that split: rejoining with commas is
the identity and no segment contains a comma) and independently decodes
each segment against the element shape with the original key; `"1,2,3"`
against an integer sequence yields `[1,2,3]`; the empty string yields the
single empty-string segment, never the empty sequence. -/
theorem c4_seq_split :
    (∀ (sh : Shape) (k v : String),
      decodeVal (.sSeq sh) k v =
        (decodeListWith (decodeVal sh k)
          ((splitComma v.data).map (fun cs => (⟨cs⟩ : String)))).map .vList)
    ∧ (∀ cs : List Char, joinComma (splitComma cs) = cs)
    ∧ (∀ cs : List Char, ∀ t ∈ splitComma cs, ',' ∉ t)
    ∧ (∀ k, decodeVal (.sSeq .sString) k "" = .ok (.vList [.vStr ""]))
    ∧ decodeVal (.sSeq .sU64) "DOOM" "1,2,3" = .ok (.vList [.vNat 1, .vNat 2, .vNat 3])
    ∧ (∀ (sh : Shape) (k : String), decodeVal (.sSeq sh) k "" ≠ .ok (.vList [])) := by
  refine ⟨fun sh k v => rfl, splitComma_join, splitComma_no_comma, fun k => rfl, rfl, ?_⟩
  intro sh k h
  have hsplit : decodeVal (.sSeq sh) k "" =
      (decodeListWith (decodeVal sh k) [""]).map .vList := rfl
  rw [hsplit] at h
  cases he : decodeVal sh k "" with
  | ok val => simp [decodeListWith, he, Except.map] at h
  | error e => simp [decodeListWith, he, Except.map] at h

/-- Closed witness for `c4_seq_split`: a concrete segment of a split is
comma-free, and the empty raw string never decodes to an empty
sequence. -/
theorem c4_seq_split_witness :
    (',' ∉ (['1'] : List Char))
    ∧ decodeVal (.sSeq .sString) "K" "" ≠ .ok (.vList []) :=
  ⟨c4_seq_split.2.2.1 "1,2".data ['1'] (by decide), c4_seq_split.2.2.2.2.2 .sString "K"⟩

/-! ### Claim C8: optional fields -/

/-- C8: an optional field with a present value decodes the inner shape
from the same raw string and wraps it as `Some`; with no bound value and
no default it resolves to `None` without any scalar parsing (the
resolution is `ok` for every shape, parseable or not); concretely, an
absent `Option<u16>` field yields `None` and a present one `Some 4`. -/
theorem c8_option :
    (∀ (sh : Shape) (k v : String),
      decodeVal (.sOption sh) k v = (decodeVal sh k v).map .vSome)
    ∧ (∀ (name : String) (sh : Shape) (slots : List (String × Value)),
        slots.lookup name = none →
        resolveField slots ⟨name, .sOption sh, none⟩ = .ok (name, .vNone))
    ∧ fromIter [⟨"zoom", .sOption .sU16, none⟩] [] = .ok (.vRecord [("zoom", .vNone)])
    ∧ fromIter [⟨"zoom", .sOption .sU16, none⟩] [("ZOOM", "4")] =
        .ok (.vRecord [("zoom", .vSome (.vNat 4))]) := by
  refine ⟨fun sh k v => rfl, ?_, rfl, rfl⟩
  intro name sh slots h
  simp [resolveField, h, Shape.isOption]

/-- Closed witness for `c8_option`: the hypothesis-bearing conjunct at
the empty slot list. -/
theorem c8_option_witness :
    resolveField [] ⟨"zoom", .sOption .sU16, none⟩ = .ok ("zoom", .vNone) :=
  c8_option.2.1 "zoom" .sU16 [] rfl

/-! ### Claim C5: prefix filtering -/

theorem trimLeading_of_not (p : List Char) (fuel : Nat) (s : List Char)
    (h : ¬(p ≠ [] ∧ p.isPrefixOf s)) : trimLeading p fuel s = s := by
  cases fuel with
  | zero => rfl
  | succ n =>
    rw [show trimLeading p (Nat.succ n) s =
      if p ≠ [] ∧ p.isPrefixOf s then trimLeading p n (s.drop p.length) else s from rfl,
      if_neg h]

/-- C5 counterexample: `trim_start_matches` removes every leading copy of
the pattern, not just one. On the key `APP_APP_FOO` with pattern `APP_`
the code produces the key `FOO`, while removing the pattern once (the
claim's reading, `specStripPairs`) would produce `APP_FOO`. -/
theorem c5_counterexample :
    prefixedPairs "APP_" [("APP_APP_FOO", "bar")] = [("FOO", "bar")]
    ∧ specStripPairs "APP_" [("APP_APP_FOO", "bar")] = [("APP_FOO", "bar")]
    ∧ prefixedPairs "APP_" [("APP_APP_FOO", "bar")] ≠
        specStripPairs "APP_" [("APP_APP_FOO", "bar")] := by
  refine ⟨rfl, rfl, ?_⟩
  rw [show prefixedPairs "APP_" [("APP_APP_FOO", "bar")] = [("FOO", "bar")] from rfl,
    show specStripPairs "APP_" [("APP_APP_FOO", "bar")] = [("APP_FOO", "bar")] from rfl]
  decide

/-- C5 amended: prefixed decoding feeds the engine exactly those pairs
whose key starts with the configured pattern, with every leading
repetition of the pattern removed from each retained key (this equals
removing the pattern once whenever the once-stripped key does not again
start with the pattern) and values untouched; non-matching pairs are
silently dropped; the `APP_` example keeps only `FOO -> bar`. -/
theorem c5_amended :
    (∀ (p : String) (l : List (String × String)),
      prefixedPairs p l =
        (l.filter (fun kv => startsWith p kv.1)).map
          (fun kv => (trimStartMatches p kv.1, kv.2)))
    ∧ (∀ p k : String, startsWith p k = true → p ≠ "" →
        startsWith p (⟨k.data.drop p.data.length⟩ : String) = false →
        trimStartMatches p k = ⟨k.data.drop p.data.length⟩)
    ∧ prefixedPairs "APP_" [("APP_FOO", "bar"), ("OTHER", "x")] = [("FOO", "bar")] := by
  refine ⟨?_, ?_, rfl⟩
  · intro p l
    induction l with
    | nil => rfl
    | cons kv l ih =>
      cases h : startsWith p kv.1 with
      | true =>
        simp only [prefixedPairs, List.filterMap_cons, List.filter_cons, h, if_true,
          List.map_cons] at ih ⊢
        exact congrArg _ ih
      | false =>
        simp only [prefixedPairs, List.filterMap_cons, List.filter_cons, h, if_false] at ih ⊢
        exact ih
  · intro p k hpre hpne hnot
    have hd : p.data ≠ [] := by
      intro h
      apply hpne
      cases p with
      | mk d => simp at h; rw [h]
    have hpref : p.data.isPrefixOf k.data = true := hpre
    have hlen : p.data.length ≤ k.data.length :=
      (List.isPrefixOf_iff_prefix.mp hpref).length_le
    have hpos : 0 < p.data.length := List.length_pos.mpr hd
    obtain ⟨n, hn⟩ : ∃ n, k.data.length = n + 1 := ⟨k.data.length - 1, by omega⟩
    have hfalse : p.data.isPrefixOf (k.data.drop p.data.length) = false := hnot
    have hcond : p.data ≠ [] ∧ p.data.isPrefixOf k.data := ⟨hd, hpref⟩
    have hstep : trimLeading p.data (n + 1) k.data =
        trimLeading p.data n (k.data.drop p.data.length) := by
      rw [show trimLeading p.data (n + 1) k.data =
        if p.data ≠ [] ∧ p.data.isPrefixOf k.data then
          trimLeading p.data n (k.data.drop p.data.length)
        else k.data from rfl, if_pos hcond]
    have hstop : trimLeading p.data n (k.data.drop p.data.length) =
        k.data.drop p.data.length := by
      apply trimLeading_of_not
      intro hcontra
      have hx := hcontra.2
      rw [hfalse] at hx
      simp at hx
    unfold trimStartMatches
    rw [hn, hstep, hstop]

/-- Closed witness for `c5_amended`: single removal on a key where the
stripped remainder does not restart with the pattern. -/
theorem c5_amended_witness : trimStartMatches "APP_" "APP_FOO" = "FOO" := by
  have h := c5_amended.2.1 "APP_" "APP_FOO" rfl (by decide) rfl
  exact h

/-! ### Claim C1: enum tag matching -/

/-- C1 counterexample: enum tag matching is exact, hence case-sensitive.
With the declared (lowercase-renamed) tags `small`/`medium`/`large`, the
raw value `small` resolves, but `Small` and `SMALL` fail with serde's
`unknown variant` Custom error instead of resolving to the same
variant. -/
theorem c1_counterexample :
    decodeVal (.sEnum "Size" ["small", "medium", "large"]) "SIZE" "Small" =
      .error (.Custom "unknown variant `Small`, expected one of `small`, `medium`, `large`")
    ∧ decodeVal (.sEnum "Size" ["small", "medium", "large"]) "SIZE" "SMALL" =
      .error (.Custom "unknown variant `SMALL`, expected one of `small`, `medium`, `large`")
    ∧ decodeVal (.sEnum "Size" ["small", "medium", "large"]) "SIZE" "small" =
      .ok (.vVariant "small") :=
  ⟨rfl, rfl, rfl⟩

/-- C1 amended: for an enumerated-variant field, decoding matches the
present raw string against the declared variant tags exactly (hence
case-sensitively; the case-insensitivity of envy applies to keys, not
values): a raw string equal to a declared tag resolves to that variant,
and a string matching no tag fails with a Custom error whose message
names the invalid tag. -/
theorem c1_amended :
    (∀ (k ename v : String) (tags : List String), v ∈ tags →
      decodeVal (.sEnum ename tags) k v = .ok (.vVariant v))
    ∧ (∀ (k ename v : String) (tags : List String), v ∉ tags →
      decodeVal (.sEnum ename tags) k v = .error (.Custom (unknownVariantMsg v tags))
      ∧ v.data <:+: (unknownVariantMsg v tags).data) := by
  constructor
  · intro k ename v tags h
    have hc : tags.contains v = true := by simpa using h
    simp [decodeVal, hc, h]
  · intro k ename v tags h
    have hc : tags.contains v = false := by simpa using h
    refine ⟨by simp [decodeVal, hc, h], ?_⟩
    refine ⟨"unknown variant `".data, ("`, expected " ++ oneOf tags).data, ?_⟩
    simp [unknownVariantMsg, string_data_append, List.append_assoc]

/-- Closed witness for `c1_amended`: both conjuncts at concrete tags. -/
theorem c1_amended_witness :
    decodeVal (.sEnum "Size" ["small", "medium", "large"]) "SIZE" "medium" =
      .ok (.vVariant "medium")
    ∧ decodeVal (.sEnum "Size" ["small", "medium", "large"]) "SIZE" "smol" =
      .error (.Custom (unknownVariantMsg "smol" ["small", "medium", "large"])) :=
  ⟨c1_amended.1 "SIZE" "Size" "medium" ["small", "medium", "large"] (by decide),
   (c1_amended.2 "SIZE" "Size" "smol" ["small", "medium", "large"] (by decide)).1⟩

/-! ### Claim C9: nested record fields -/

/-- C9 counterexample: a nested record field does not re-scan the flat
Source Map for the nested field names. With schema
`{inner: Inner{a: string}}`, the pairs `{A: y}` fail with
`MissingValue(inner)` instead of recursing to bind `a`, and
`{INNER: x, A: y}` fail with serde's invalid-type Custom error because
the raw string `x` is offered to the nested struct visitor. -/
theorem c9_counterexample :
    fromIter [⟨"inner", .sStruct "Inner" [("a", .sString, none)], none⟩] [("A", "y")] =
      .error (.MissingValue "inner")
    ∧ fromIter [⟨"inner", .sStruct "Inner" [("a", .sString, none)], none⟩]
        [("INNER", "x"), ("A", "y")] =
      .error (.Custom "invalid type: string \x22x\x22, expected struct Inner")
    ∧ fromIter [⟨"inner", .sStruct "Inner" [("a", .sString, none)], none⟩] [("A", "y")] ≠
        .ok (.vRecord [("inner", .vRecord [("a", .vStr "y")])]) := by
  refine ⟨rfl, rfl, ?_⟩
  rw [show fromIter [⟨"inner", .sStruct "Inner" [("a", .sString, none)], none⟩] [("A", "y")] =
      .error (.MissingValue "inner") from rfl]
  simp

/-- C9 amended: decoding never recurses into the Source Map for a nested
record field. If the field's own key is present, the raw string value is
handed to the nested record's deserializer and fails with serde's
invalid-type Custom error naming the struct; if the key is absent (and
no default is declared), resolution fails with `MissingValue` of the
field's name. The flat-namespace recursion described by the spec does
not happen for nested record fields. -/
theorem c9_amended :
    (∀ (sname : String) (fs : List (String × Shape × Option Value)) (k v : String),
      decodeVal (.sStruct sname fs) k v =
        .error (.Custom ("invalid type: string " ++ rustDebugStr v ++ ", expected struct " ++ sname)))
    ∧ (∀ (name sname : String) (fs : List (String × Shape × Option Value))
        (slots : List (String × Value)),
        slots.lookup name = none →
        resolveField slots ⟨name, .sStruct sname fs, none⟩ = .error (.MissingValue name)) := by
  refine ⟨fun sname fs k v => rfl, ?_⟩
  intro name sname fs slots h
  simp [resolveField, h, Shape.isOption]

/-- Closed witness for `c9_amended`: the hypothesis-bearing conjunct at
the empty slot list. -/
theorem c9_amended_witness :
    resolveField [] ⟨"inner", .sStruct "Inner" [("a", .sString, none)], none⟩ =
      .error (.MissingValue "inner") :=
  c9_amended.2 "inner" "Inner" [("a", .sString, none)] [] rfl

/-! ### Error analysis of the embedding -/

theorem except_map_error {α β γ : Type} (f : α → β) (x : Except γ α) (e : γ)
    (h : x.map f = .error e) : x = .error e := by
  cases x with
  | ok a => simp [Except.map] at h
  | error e' => simp [Except.map] at h; rw [h]

theorem fwdParsed_error (k v : String) (r : Except String Value) (e : Error)
    (h : fwdParsed k v r = .error e) : ∃ m, e = .Custom m := by
  cases r with
  | ok val => simp [fwdParsed] at h
  | error e' => simp [fwdParsed] at h; exact ⟨_, h.symm⟩

theorem decodeListWith_error_mem (f : String → Except Error Value) :
    ∀ (l : List String) (e : Error),
      decodeListWith f l = .error e → ∃ s ∈ l, f s = .error e := by
  intro l
  induction l with
  | nil => intro e h; simp [decodeListWith] at h
  | cons s rest ih =>
    intro e h
    simp only [decodeListWith] at h
    cases hf : f s with
    | ok val =>
      rw [hf] at h
      have hr := except_map_error _ _ _ h
      obtain ⟨s', hs', h'⟩ := ih e hr
      exact ⟨s', List.mem_cons_of_mem s hs', h'⟩
    | error e' =>
      rw [hf] at h
      injection h with h
      exact ⟨s, List.mem_cons_self s rest, by rw [hf, h]⟩

/-- Every error produced by `Val`'s deserializer is a `Custom` error:
`MissingValue` only ever arises from field resolution. -/
theorem decodeVal_error_custom : ∀ (sh : Shape) (k v : String) (e : Error),
    decodeVal sh k v = .error e → ∃ m, e = .Custom m
  | .sBool, k, v, e, h => fwdParsed_error k v _ e h
  | .sU8, k, v, e, h => fwdParsed_error k v _ e h
  | .sU16, k, v, e, h => fwdParsed_error k v _ e h
  | .sU32, k, v, e, h => fwdParsed_error k v _ e h
  | .sU64, k, v, e, h => fwdParsed_error k v _ e h
  | .sI8, k, v, e, h => fwdParsed_error k v _ e h
  | .sI16, k, v, e, h => fwdParsed_error k v _ e h
  | .sI32, k, v, e, h => fwdParsed_error k v _ e h
  | .sI64, k, v, e, h => fwdParsed_error k v _ e h
  | .sString, _, _, _, h => by simp [decodeVal] at h
  | .sOption sh, k, v, e, h => by
    have hin : decodeVal sh k v = .error e := except_map_error _ _ _ h
    exact decodeVal_error_custom sh k v e hin
  | .sSeq sh, k, v, e, h => by
    have hin := except_map_error _ _ _ h
    obtain ⟨s, _, herr⟩ := decodeListWith_error_mem _ _ _ hin
    exact decodeVal_error_custom sh k s e herr
  | .sEnum ename names, k, v, e, h => by
    simp only [decodeVal] at h
    cases hc : names.contains v with
    | true => rw [hc] at h; simp at h
    | false => rw [hc] at h; simp at h; exact ⟨_, h.symm⟩
  | .sStruct sname fs, k, v, e, h => by
    simp only [decodeVal] at h
    injection h with h
    exact ⟨_, h.symm⟩

theorem processPairs_error_custom (fields : List Field) :
    ∀ (pairs : List (String × String)) (slots : List (String × Value)) (e : Error),
      processPairs fields pairs slots = .error e → ∃ m, e = .Custom m := by
  intro pairs
  induction pairs with
  | nil => intro slots e h; simp [processPairs] at h
  | cons kv rest ih =>
    intro slots e h
    obtain ⟨k, v⟩ := kv
    simp only [processPairs] at h
    split at h
    · rename_i f hfind
      split at h
      · injection h with h
        exact ⟨_, h.symm⟩
      · split at h
        · exact ih _ e h
        · rename_i e' hd
          injection h with h
          exact decodeVal_error_custom f.shape k v e (by rw [hd, h])
    · exact ih slots e h

theorem resolveField_error (slots : List (String × Value)) (g : Field) (e : Error)
    (h : resolveField slots g = .error e) :
    e = .MissingValue g.name ∧ slots.lookup g.name = none ∧ g.dflt = none ∧
      g.shape.isOption = false := by
  unfold resolveField at h
  cases hl : slots.lookup g.name with
  | some v => rw [hl] at h; simp at h
  | none =>
    rw [hl] at h
    cases hd : g.dflt with
    | some d => rw [hd] at h; simp at h
    | none =>
      rw [hd] at h
      cases ho : g.shape.isOption with
      | true => rw [ho] at h; simp at h
      | false =>
        rw [ho] at h
        simp only [Bool.false_eq_true, if_false] at h
        injection h with h
        exact ⟨h.symm, rfl, rfl, rfl⟩

theorem resolveField_ok_of_not_missing (slots : List (String × Value)) (g : Field)
    (h : ¬ requiredMissing slots g) : ∃ p, resolveField slots g = .ok p := by
  unfold requiredMissing at h
  unfold resolveField
  cases hl : slots.lookup g.name with
  | some v => exact ⟨_, rfl⟩
  | none =>
    cases hd : g.dflt with
    | some d => exact ⟨_, rfl⟩
    | none =>
      cases ho : g.shape.isOption with
      | true => simp [ho]
      | false =>
        refine absurd ?_ h
        exact ⟨by rw [hl]; rfl, by rw [hd]; rfl, ho⟩

theorem resolveFields_error_mem (slots : List (String × Value)) :
    ∀ (fields : List Field) (e : Error),
      resolveFields slots fields = .error e → ∃ g ∈ fields, resolveField slots g = .error e := by
  intro fields
  induction fields with
  | nil => intro e h; simp [resolveFields] at h
  | cons g rest ih =>
    intro e h
    simp only [resolveFields] at h
    cases hg : resolveField slots g with
    | ok p =>
      rw [hg] at h
      obtain ⟨g', hg', h'⟩ := ih e (except_map_error _ _ _ h)
      exact ⟨g', List.mem_cons_of_mem g hg', h'⟩
    | error e' =>
      rw [hg] at h
      injection h with h
      exact ⟨g, List.mem_cons_self g rest, by rw [hg, h]⟩

theorem resolveFields_append_error (slots : List (String × Value)) :
    ∀ (pre rest : List Field) (e : Error),
      (∀ g ∈ pre, ∃ p, resolveField slots g = .ok p) →
      resolveFields slots rest = .error e →
      resolveFields slots (pre ++ rest) = .error e := by
  intro pre
  induction pre with
  | nil => intro rest e _ h; simpa using h
  | cons g pre ih =>
    intro rest e hok hrest
    obtain ⟨p, hp⟩ := hok g (List.mem_cons_self g pre)
    have htail := ih rest e (fun g' hg' => hok g' (List.mem_cons_of_mem g hg')) hrest
    simp only [List.cons_append, resolveFields, hp, List.append_eq, htail, Except.map]

/-! ### Claim C3: scalar parse failures become descriptive Custom errors -/

/-- For a shape handled by `forward_parsed_values!`, decoding is the
forwarding of that parse result. -/
theorem decodeVal_scalar (sh : Shape) (v : String) (r : Except String Value)
    (h : scalarParse sh v = some r) (k : String) : decodeVal sh k v = fwdParsed k v r := by
  cases sh <;> simp only [scalarParse] at h <;>
    first
      | (injection h with h2; subst h2; rfl)
      | injection h

/-- C3: whenever a present value fails to parse as the field's declared
scalar kind, decoding returns (as a value, the embedding being a total
function into `Except`) a Custom error whose message contains the
underlying parse error text, the offending raw value and the source key
it came from. -/
theorem c3_parse_error_message :
    ∀ (sh : Shape) (k v e : String), scalarParse sh v = some (.error e) →
      decodeVal sh k v = .error (.Custom (parseFailMsg e v k))
      ∧ e.data <:+: (parseFailMsg e v k).data
      ∧ v.data <:+: (parseFailMsg e v k).data
      ∧ k.data <:+: (parseFailMsg e v k).data := by
  intro sh k v e h
  refine ⟨by rw [decodeVal_scalar sh v (.error e) h k]; rfl, ?_, ?_, ?_⟩
  · exact ⟨[], (" while parsing value \x27" ++ v ++ "\x27 provided by " ++ k).data, by
      simp [parseFailMsg, string_data_append, List.append_assoc]⟩
  · exact ⟨(e ++ " while parsing value \x27").data, ("\x27 provided by " ++ k).data, by
      simp [parseFailMsg, string_data_append, List.append_assoc]⟩
  · exact ⟨(e ++ " while parsing value \x27" ++ v ++ "\x27 provided by ").data, [], by
      simp [parseFailMsg, string_data_append, List.append_assoc]⟩

/-- Closed witness for `c3_parse_error_message`: the boolean field of the
repository's own `fails_with_invalid_type` test. -/
theorem c3_witness :
    decodeVal .sBool "BAZ" "notabool" =
      .error (.Custom "provided string was not `true` or `false` while parsing value \x27notabool\x27 provided by BAZ") :=
  (c3_parse_error_message .sBool "BAZ" "notabool"
    "provided string was not `true` or `false`" rfl).1

theorem fromIter_eq_ok (fields : List Field) (pairs : List (String × String))
    (slots : List (String × Value)) (h : processPairs fields pairs [] = .ok slots) :
    fromIter fields pairs = (resolveFields slots fields).map .vRecord := by
  unfold fromIter
  split
  · rename_i slots' heq
    rw [h] at heq
    injection heq with heq
    rw [heq]
  · rename_i e heq
    rw [h] at heq
    exact absurd heq (by simp)

theorem fromIter_eq_error (fields : List Field) (pairs : List (String × String))
    (e : Error) (h : processPairs fields pairs [] = .error e) :
    fromIter fields pairs = .error e := by
  unfold fromIter
  split
  · rename_i slots' heq
    rw [h] at heq
    exact absurd heq (by simp)
  · rename_i e' heq
    rw [h] at heq
    injection heq with heq
    rw [heq]

/-! ### Claim C2: missing required fields fail fast -/

/-- C2: when the pair loop succeeds and `f` is the first declared field
that is required (no default, not an `Option`) and unbound, decoding
returns exactly `MissingValue` of that field's name — resolution stops at
the first missing required field and no later field can alter the
error. -/
theorem c2_missing_value :
    ∀ (pre post : List Field) (f : Field) (pairs : List (String × String))
      (slots : List (String × Value)),
      processPairs (pre ++ f :: post) pairs [] = .ok slots →
      (∀ g ∈ pre, ¬ requiredMissing slots g) →
      requiredMissing slots f →
      fromIter (pre ++ f :: post) pairs = .error (.MissingValue f.name) := by
  intro pre post f pairs slots hok hpre hf
  rw [fromIter_eq_ok _ _ _ hok]
  have hferr : resolveField slots f = .error (.MissingValue f.name) := by
    unfold resolveField
    rw [Option.isNone_iff_eq_none.mp hf.1, Option.isNone_iff_eq_none.mp hf.2.1, hf.2.2]
    rfl
  have herr : resolveFields slots (f :: post) = .error (.MissingValue f.name) := by
    simp only [resolveFields, hferr]
  rw [resolveFields_append_error slots pre (f :: post) _
    (fun g hg => resolveField_ok_of_not_missing slots g (hpre g hg)) herr]
  rfl

/-- Closed witness for `c2_missing_value`: the repository's own
`fails_with_missing_value` test case (fields `bar`, `baz`, `doom`; pairs
binding only `bar` and `baz`). -/
theorem c2_witness :
    fromIter [⟨"bar", .sString, none⟩, ⟨"baz", .sBool, none⟩, ⟨"doom", .sSeq .sU64, none⟩]
      [("BAR", "test"), ("BAZ", "true")] = .error (.MissingValue "doom") :=
  c2_missing_value [⟨"bar", .sString, none⟩, ⟨"baz", .sBool, none⟩] []
    ⟨"doom", .sSeq .sU64, none⟩ [("BAR", "test"), ("BAZ", "true")]
    [("bar", .vStr "test"), ("baz", .vBool true)] rfl (by decide) (by decide)

/-! ### Claim C7: declared defaults -/

/-- C7: a field with a declared default supplier and no bound source
value resolves by binding the supplied default, and decoding can never
fail with `MissingValue` of that field's name (assuming every field of
that name declares a default, as Rust struct fields are unique). -/
theorem c7_default :
    ∀ (fields : List Field) (f : Field) (d : Value),
      f ∈ fields → f.dflt = some d →
      (∀ g ∈ fields, g.name = f.name → g.dflt.isSome = true) →
      (∀ slots : List (String × Value), slots.lookup f.name = none →
        resolveField slots f = .ok (f.name, d))
      ∧ (∀ pairs : List (String × String),
          fromIter fields pairs ≠ .error (.MissingValue f.name)) := by
  intro fields f d hmem hd hall
  constructor
  · intro slots hl
    unfold resolveField
    rw [hl, hd]
  · intro pairs h
    cases hp : processPairs fields pairs [] with
    | error e =>
      rw [fromIter_eq_error fields pairs e hp] at h
      injection h with h
      obtain ⟨m, hm⟩ := processPairs_error_custom fields pairs [] e hp
      rw [hm] at h
      simp at h
    | ok slots =>
      rw [fromIter_eq_ok fields pairs slots hp] at h
      have hres : resolveFields slots fields = .error (.MissingValue f.name) :=
        except_map_error _ _ _ h
      obtain ⟨g, hg, hgerr⟩ := resolveFields_error_mem slots fields _ hres
      obtain ⟨hname, _, hdnone, _⟩ := resolveField_error slots g _ hgerr
      have hgn : g.name = f.name := by
        have := hname
        injection this with this
        exact this.symm
      have hsome := hall g hg hgn
      rw [hdnone] at hsome
      simp at hsome

/-- Closed witness for `c7_default`: the `kaboom` field of the
repository's test schema with its `default_kaboom` supplier. -/
theorem c7_default_witness :
    resolveField [] ⟨"kaboom", .sU16, some (.vNat 8080)⟩ = .ok ("kaboom", .vNat 8080)
    ∧ fromIter [⟨"kaboom", .sU16, some (.vNat 8080)⟩] [] ≠ .error (.MissingValue "kaboom") := by
  have h := c7_default [⟨"kaboom", .sU16, some (.vNat 8080)⟩] ⟨"kaboom", .sU16, some (.vNat 8080)⟩
    (.vNat 8080) (List.mem_singleton.mpr rfl) rfl
    (by intro g hg _; rw [List.mem_singleton.mp hg]; rfl)
  exact ⟨h.1 [] rfl, h.2 []⟩

/-! ### Claim C10: keys are matched lowercased, reported verbatim -/

theorem fwdParsed_ok_key (k k2 v : String) (r : Except String Value) (val : Value)
    (h : fwdParsed k v r = .ok val) : fwdParsed k2 v r = .ok val := by
  cases r with
  | ok a => exact h
  | error e => simp [fwdParsed] at h

theorem decodeListWith_ok_congr (f g : String → Except Error Value)
    (hfg : ∀ s val, f s = .ok val → g s = .ok val) :
    ∀ (l : List String) (vs : List Value),
      decodeListWith f l = .ok vs → decodeListWith g l = .ok vs := by
  intro l
  induction l with
  | nil => intro vs h; simpa [decodeListWith] using h
  | cons s rest ih =>
    intro vs h
    simp only [decodeListWith] at h ⊢
    cases hf : f s with
    | ok v =>
      rw [hf] at h
      cases hr : decodeListWith f rest with
      | ok vs' =>
        rw [hr] at h
        simp [Except.map] at h
        rw [hfg s v hf, ih vs' hr]
        simp [Except.map, h]
      | error e => rw [hr] at h; simp [Except.map] at h
    | error e => rw [hf] at h; simp at h

/-- The successful result of `Val`'s deserializer does not depend on the
key: the original key spelling only feeds error messages. -/
theorem decodeVal_ok_key : ∀ (sh : Shape) (k k2 v : String) (val : Value),
    decodeVal sh k v = .ok val → decodeVal sh k2 v = .ok val
  | .sBool, k, k2, v, val, h => fwdParsed_ok_key k k2 v _ val h
  | .sU8, k, k2, v, val, h => fwdParsed_ok_key k k2 v _ val h
  | .sU16, k, k2, v, val, h => fwdParsed_ok_key k k2 v _ val h
  | .sU32, k, k2, v, val, h => fwdParsed_ok_key k k2 v _ val h
  | .sU64, k, k2, v, val, h => fwdParsed_ok_key k k2 v _ val h
  | .sI8, k, k2, v, val, h => fwdParsed_ok_key k k2 v _ val h
  | .sI16, k, k2, v, val, h => fwdParsed_ok_key k k2 v _ val h
  | .sI32, k, k2, v, val, h => fwdParsed_ok_key k k2 v _ val h
  | .sI64, k, k2, v, val, h => fwdParsed_ok_key k k2 v _ val h
  | .sString, _, _, _, _, h => h
  | .sOption sh, k, k2, v, val, h => by
    simp only [decodeVal] at h ⊢
    cases hin : decodeVal sh k v with
    | ok u =>
      rw [hin] at h
      simp [Except.map] at h
      rw [decodeVal_ok_key sh k k2 v u hin]
      simp [Except.map, h]
    | error e => rw [hin] at h; simp [Except.map] at h
  | .sSeq sh, k, k2, v, val, h => by
    simp only [decodeVal] at h ⊢
    cases hin : decodeListWith (decodeVal sh k)
        ((splitComma v.data).map (fun cs => (⟨cs⟩ : String))) with
    | ok vs =>
      rw [hin] at h
      simp [Except.map] at h
      rw [decodeListWith_ok_congr (decodeVal sh k) (decodeVal sh k2)
        (fun s u hu => decodeVal_ok_key sh k k2 s u hu) _ vs hin]
      simp [Except.map, h]
    | error e => rw [hin] at h; simp [Except.map] at h
  | .sEnum ename names, _, _, v, val, h => h
  | .sStruct sname fs, k, k2, v, val, h => by simp [decodeVal] at h

theorem processPairs_key (fields : List Field) (k k2 v : String)
    (hk : lowercase k = lowercase k2) (rest : List (String × String))
    (slots r : List (String × Value))
    (h : processPairs fields ((k, v) :: rest) slots = .ok r) :
    processPairs fields ((k2, v) :: rest) slots = .ok r := by
  simp only [processPairs] at h ⊢
  rw [← hk]
  cases hf : fields.find? (fun f => f.name == lowercase k) with
  | none =>
    rw [hf] at h
    exact h
  | some f =>
    rw [hf] at h
    replace h : (if (slots.lookup f.name).isSome = true then
        Except.error (Error.Custom ("duplicate field `" ++ f.name ++ "`"))
      else match decodeVal f.shape k v with
        | .ok val => processPairs fields rest (slots ++ [(f.name, val)])
        | .error e => .error e) = .ok r := h
    show (if (slots.lookup f.name).isSome = true then
        Except.error (Error.Custom ("duplicate field `" ++ f.name ++ "`"))
      else match decodeVal f.shape k2 v with
        | .ok val => processPairs fields rest (slots ++ [(f.name, val)])
        | .error e => .error e) = .ok r
    split at h
    · simp at h
    · rename_i hdup
      rw [if_neg hdup]
      split at h
      · rename_i u hd
        rw [decodeVal_ok_key f.shape k k2 v u hd]
        exact h
      · simp at h

theorem fromIter_key (fields : List Field) (k k2 v : String)
    (rest : List (String × String)) (r : Value) (hk : lowercase k = lowercase k2)
    (h : fromIter fields ((k, v) :: rest) = .ok r) :
    fromIter fields ((k2, v) :: rest) = .ok r := by
  cases hp : processPairs fields ((k, v) :: rest) [] with
  | error e =>
    rw [fromIter_eq_error _ _ _ hp] at h
    simp at h
  | ok slots =>
    rw [fromIter_eq_ok _ _ _ hp] at h
    rw [fromIter_eq_ok _ _ _ (processPairs_key fields k k2 v hk rest [] slots hp)]
    exact h

/-- C10: a source pair binds a field through the lowercased key — two
keys with the same lowercasing are interchangeable for successful
decoding — while the Custom message of a parse failure reports the
original, un-lowercased key spelling. -/
theorem c10_lowercase_keys :
    (∀ (fields : List Field) (k k2 v : String) (rest : List (String × String)) (r : Value),
      lowercase k = lowercase k2 →
      (fromIter fields ((k, v) :: rest) = .ok r ↔ fromIter fields ((k2, v) :: rest) = .ok r))
    ∧ (∀ kk : String, lowercase kk = "baz" →
      fromIter [⟨"baz", .sBool, none⟩] [(kk, "notabool")] =
        .error (.Custom ("provided string was not `true` or `false` while parsing value \x27notabool\x27 provided by " ++ kk))) := by
  constructor
  · intro fields k k2 v rest r hk
    exact ⟨fun h => fromIter_key fields k k2 v rest r hk h,
      fun h => fromIter_key fields k2 k v rest r hk.symm h⟩
  · intro kk hkk
    have hfind : [(⟨"baz", .sBool, none⟩ : Field)].find?
        (fun f => f.name == lowercase kk) = some ⟨"baz", .sBool, none⟩ := by
      simp [List.find?, hkk]
    have hdv : decodeVal .sBool kk "notabool" =
        .error (.Custom ("provided string was not `true` or `false` while parsing value \x27notabool\x27 provided by " ++ kk)) := rfl
    apply fromIter_eq_error
    simp only [processPairs]
    rw [hfind]
    simp only [List.lookup, Option.isSome_none, Bool.false_eq_true, if_false, hdv]

/-- Closed witness for `c10_lowercase_keys`: the `BAR`/`Bar` pair bind
the same field, and the repository's `fails_with_invalid_type` message
reports the original `BAZ`. -/
theorem c10_witness :
    (fromIter [⟨"bar", .sString, none⟩] [("BAR", "x")] = .ok (.vRecord [("bar", .vStr "x")]) ↔
      fromIter [⟨"bar", .sString, none⟩] [("Bar", "x")] = .ok (.vRecord [("bar", .vStr "x")]))
    ∧ fromIter [⟨"baz", .sBool, none⟩] [("BAZ", "notabool")] =
      .error (.Custom "provided string was not `true` or `false` while parsing value \x27notabool\x27 provided by BAZ") :=
  ⟨c10_lowercase_keys.1 [⟨"bar", .sString, none⟩] "BAR" "Bar" "x" [] (.vRecord [("bar", .vStr "x")]) rfl,
   c10_lowercase_keys.2 "BAZ" rfl⟩

end Envy
